import Mathlib

/-!
# Verification of the Hourly-Divvy trip-predictor preprocessing core

Shallow embedding of the time-series-to-training-data engine of the
Hourly-Divvy-Trip-Predictor repository, together with theorems settling the
specification claims about it.

Embedded source files:
* `src/feature_pipeline/preprocessing/transformations/time_series/cutoffs.py`
  (`CutoffIndexer`),
* `src/feature_pipeline/preprocessing/transformations/training_data.py`
  (`transform_ts_into_training_data`, the per-station row-assembly loop),
* `src/feature_pipeline/preprocessing/transformations/time_series/core.py`
  (`aggregate_final_ts` and the common-key map-reconciliation pass of
  `transform_cleaned_data_into_ts`),
* `src/feature_pipeline/preprocessing/station_indexing/choice.py`
  (`check_if_we_use_custom_station_indexing` and the policy `match` of
  `investigate_making_new_station_ids`).

Conventions of the embedding:
* machine integers are `Nat`/`Int` (Python integers are unbounded, so no
  wraparound modelling is needed); the float division in the invalid-id-ratio
  check is modelled with exact rational division (`ℚ`), which agrees with the
  Python float comparison for every realistically sized table;
* Python exceptions are modelled by `Except PyErr` / `Option` (with `none`
  standing for a propagated exception where only one exception is possible);
* the two `while` loops of `CutoffIndexer` are modelled with an explicit
  iteration bound ("fuel"); the wrapper functions supply a bound that is
  proved sufficient whenever `step_size ≥ 1` (for `step_size = 0` the Python
  loops diverge, and no theorem below concerns that case);
* pandas dataframes are modelled as lists of rows, `DataFrame.iloc` row access
  as positional list access, and JSON dictionaries as association lists with
  first-occurrence lookup.
-/

namespace HourlyDivvy

/-- The Python exceptions that can arise in the embedded code.  Note that no
`EmptySeriesError` class exists anywhere in the repository, so the error type
has no such constructor. -/
inductive PyErr where
  | attributeError
  | assertionError
  | notImplementedError
  | zeroDivisionError
  deriving DecidableEq, Repr

/-! ## CutoffIndexer (`cutoffs.py`)

`CutoffIndexer.use_standard_cutoff_indexer` (lines 25–36):
`stop_position = len(self.ts_data) - 1` and the method returns
`stop_position >= self.input_seq_len + 1`.  Python's `len(...) - 1` can be
`-1`, so the subtraction is carried out in `Int`. -/

/-- Embedding of `CutoffIndexer.use_standard_cutoff_indexer` as a function of
the series length `L` and `input_seq_len` (the only data it reads). -/
def use_standard_cutoff_indexer (L input_seq_len : Nat) : Bool :=
  decide ((L : Int) - 1 ≥ (input_seq_len : Int) + 1)

/-- The body of the `while last_index <= self.stop_position` loop of
`CutoffIndexer.run_standard_cutoff_indexer` (lines 102–111), with an explicit
iteration bound `fuel`. -/
def runStandardLoop (stop : Int) (step : Nat) :
    Nat → Nat → Nat → Nat → List (Nat × Nat × Nat)
  | 0, _, _, _ => []
  | fuel + 1, first, mid, last =>
      if (last : Int) ≤ stop then
        (first, mid, last) :: runStandardLoop stop step fuel (first + step) (mid + step) (last + step)
      else []

/-- Embedding of `CutoffIndexer.run_standard_cutoff_indexer` (lines 82–111):
collect `(first, mid, last)` triples while `last <= stop_position`, advancing
all three indices by `step_size` each iteration.  The supplied iteration bound
`(stop + 1 - last).toNat` is sufficient for every `step ≥ 1`
(`runStandardLoop_fuel`). -/
def run_standard_cutoff_indexer (stop : Int) (step first mid last : Nat) :
    List (Nat × Nat × Nat) :=
  runStandardLoop stop step (stop + 1 - (last : Int)).toNat first mid last

/-- The body of the `while mid_index <= self.stop_position` loop of
`CutoffIndexer.run_modified_cutoff_indexer` (lines 71–80), with an explicit
iteration bound `fuel`.  The stopping test is on `mid`, not `last`. -/
def runModifiedLoop (stop : Int) (step : Nat) :
    Nat → Nat → Nat → Nat → List (Nat × Nat × Nat)
  | 0, _, _, _ => []
  | fuel + 1, first, mid, last =>
      if (mid : Int) ≤ stop then
        (first, mid, last) :: runModifiedLoop stop step fuel (first + step) (mid + step) (last + step)
      else []

/-- Embedding of `CutoffIndexer.run_modified_cutoff_indexer` (lines 59–80). -/
def run_modified_cutoff_indexer (stop : Int) (step first mid last : Nat) :
    List (Nat × Nat × Nat) :=
  runModifiedLoop stop step (stop + 1 - (mid : Int)).toNat first mid last

/-- Result of `CutoffIndexer.get_cutoff_indices`.  The `L == 1` branch of the
source (line 57) returns the one-element list `[self.ts_data.index[0]]` — a
pandas row label, not an index triple; only the length of that list is ever
consumed downstream, so the label value itself is not modelled.  When no
branch applies (only possible for `L == 0`) the Python function falls off the
end and implicitly returns `None`, modelled by `pyNone`. -/
inductive CutoffResult where
  | triples (idxs : List (Nat × Nat × Nat))
  | single
  | pyNone
  deriving DecidableEq, Repr

/-- Embedding of `CutoffIndexer.get_cutoff_indices` (lines 38–57) as a function
of the `use_standard_indexer` flag it reads, the series length `L`,
`input_seq_len` and `step_size`.  The standard run starts from
`(0, input_seq_len, input_seq_len + 1)`, the modified run from `(0, 1, 2)`,
both against `stop_position = L - 1`. -/
def get_cutoff_indices (use_standard : Bool) (L input_seq_len step : Nat) :
    CutoffResult :=
  if use_standard then
    .triples (run_standard_cutoff_indexer ((L : Int) - 1) step 0 input_seq_len (input_seq_len + 1))
  else if 2 ≤ L then
    .triples (run_modified_cutoff_indexer ((L : Int) - 1) step 0 1 2)
  else if L = 1 then
    .single
  else
    .pyNone

/-- The attributes of a `CutoffIndexer` object while `__init__` is running.
`use_standard_indexer` is `none` until line 22 assigns it; reading it before
that raises `AttributeError` in Python. -/
structure CutoffSelf where
  step_size : Nat
  ts_len : Nat
  input_seq_len : Nat
  stop_position : Int
  use_standard_indexer : Option Bool

/-- Embedding of the method call `self.get_cutoff_indices()` on a possibly
partially initialised object: reading the unset attribute
`self.use_standard_indexer` (line 43) raises `AttributeError`. -/
def getCutoffIndicesMethod (s : CutoffSelf) : Except PyErr CutoffResult :=
  match s.use_standard_indexer with
  | none => .error .attributeError
  | some flag => .ok (get_cutoff_indices flag s.ts_len s.input_seq_len s.step_size)

/-- A fully constructed `CutoffIndexer` object. -/
structure CutoffIndexerObj where
  step_size : Nat
  ts_len : Nat
  input_seq_len : Nat
  stop_position : Int
  use_standard_indexer : Bool
  indices : CutoffResult
  deriving Repr

/-- Embedding of `CutoffIndexer.__init__` (lines 5–23): lines 16–19 set
`step_size`, `ts_data`, `input_seq_len` and `stop_position`; line 21 assigns
`self.indices = self.get_cutoff_indices()` *before* line 22 assigns
`self.use_standard_indexer`; line 23 recomputes `self.indices`. -/
def cutoffIndexer_init (L input_seq_len step : Nat) :
    Except PyErr CutoffIndexerObj :=
  let s : CutoffSelf :=
    { step_size := step, ts_len := L, input_seq_len := input_seq_len
      stop_position := (L : Int) - 1, use_standard_indexer := none }
  match getCutoffIndicesMethod s with
  | .error e => .error e
  | .ok _indices₀ =>
      let flag := use_standard_cutoff_indexer L input_seq_len
      match getCutoffIndicesMethod { s with use_standard_indexer := some flag } with
      | .error e => .error e
      | .ok indices =>
          .ok { step_size := step, ts_len := L, input_seq_len := input_seq_len
                stop_position := (L : Int) - 1, use_standard_indexer := flag
                indices := indices }

/-! ## WindowMaterializer (`training_data.py`, per-station loop, lines 42–100)

The per-station frame has columns `{scenario}_hour`, `{scenario}_station_id`,
`trips` (in that order, line 50), sorted ascending by hour (line 51). -/

/-- One row of a per-station hourly series frame. -/
structure TSRow where
  hour : Nat
  station_id : Nat
  trips : Nat
  deriving DecidableEq, Repr

/-- One assembled training row: feature vector, the `{scenario}_hour` column
(the hour at the `mid` offset), the `{scenario}_station_id` column, and the
`trips_next_hour` target. -/
structure TrainingRow where
  features : List Nat
  hour : Nat
  station_id : Nat
  target : Nat
  deriving DecidableEq, Repr

/-- `df.iloc[first:mid]["trips"].values`: the positional slice `[first, mid)`
of the `trips` column. -/
def window_slice (trips : List Nat) (first mid : Nat) : List Nat :=
  (trips.drop first).take (mid - first)

/-- Numpy row assignment `x[i, :] = vals` into a row of width `width`: a
length-1 value array is broadcast by repetition, a length-`width` array is
copied, any other shape raises (modelled by `none`). -/
def npBroadcastRow (width : Nat) : List Nat → Option (List Nat)
  | [v] => some (List.replicate width v)
  | vs => if vs.length = width then some vs else none

/-- Lines 64–68 of `training_data.py` (standard regime), one iteration: for a
triple `(first, mid, last)`, the hour comes from row `mid`, the feature window
from rows `[first, mid)` of the `trips` column, and the target from row
`last`; a positional access out of range raises (modelled by `none`). -/
def standard_row (input_seq_len : Nat) (series : List TSRow) (sid : Nat)
    (t : Nat × Nat × Nat) : Option TrainingRow :=
  match series.get? t.2.1, series.get? t.2.2,
      npBroadcastRow input_seq_len (window_slice (series.map TSRow.trips) t.1 t.2.1) with
  | some midRow, some lastRow, some feats =>
      some { features := feats, hour := midRow.hour, station_id := sid
             target := lastRow.trips }
  | _, _, _ => none

/-- Lines 84–88 of `training_data.py` (modified regime), one iteration: the
target is `ts[mid:last]["trips"].values[0]`, i.e. the head of the slice
`[mid, last)` — the trips value at row `mid`. -/
def modified_row (input_seq_len : Nat) (series : List TSRow) (sid : Nat)
    (t : Nat × Nat × Nat) : Option TrainingRow :=
  match series.get? t.2.1,
      (window_slice (series.map TSRow.trips) t.2.1 t.2.2).head?,
      npBroadcastRow input_seq_len (window_slice (series.map TSRow.trips) t.1 t.2.1) with
  | some midRow, some targetVal, some feats =>
      some { features := feats, hour := midRow.hour, station_id := sid
             target := targetVal }
  | _, _, _ => none

/-- The materialization `for` loop: assemble a row per cutoff triple, in
triple order; the first raised exception propagates. -/
def optionMapAll {α β : Type} (f : α → Option β) : List α → Option (List β)
  | [] => some []
  | a :: rest =>
      match f a, optionMapAll f rest with
      | some b, some bs => some (b :: bs)
      | _, _ => none

/-- The body of the per-station loop of `transform_ts_into_training_data`
(lines 53–100) on an already filtered and hour-sorted per-station frame
`series`: compute the cutoff indices (as the constructed indexer would hold
them, lines 22–23 of `cutoffs.py`), then materialize rows according to the
regime.  The `.pyNone` case models the `TypeError` that `len(None)` would
raise at line 57 (only reachable for an empty series). -/
def station_rows (input_seq_len step : Nat) (series : List TSRow) (sid : Nat) :
    Option (List TrainingRow) :=
  let flag := use_standard_cutoff_indexer series.length input_seq_len
  match get_cutoff_indices flag series.length input_seq_len step with
  | .pyNone => none
  | .single =>
      match series.head? with
      | some r =>
          some [{ features := List.replicate input_seq_len r.trips, hour := r.hour
                  station_id := sid, target := r.trips }]
      | none => none
  | .triples idxs =>
      if flag then optionMapAll (standard_row input_seq_len series sid) idxs
      else optionMapAll (modified_row input_seq_len series sid) idxs

/-- The end-to-end example of the spec: one station (id 7) observed at hours
`0..4` with trip counts `[2, 3, 1, 4, 2]`. -/
def exampleSeries : List TSRow :=
  [⟨0, 7, 2⟩, ⟨1, 7, 3⟩, ⟨2, 7, 1⟩, ⟨3, 7, 4⟩, ⟨4, 7, 2⟩]

/-- A two-observation series (Regime B) for the same station. -/
def exampleSeries2 : List TSRow :=
  [⟨0, 7, 5⟩, ⟨1, 7, 9⟩]

/-! ## Whole-table row assembly (`transform_ts_into_training_data`) -/

/-- `pandas.unique` over a column with an explicit set of already-seen
values. -/
def uniqueIdsAux : List Nat → List Nat → List Nat
  | [], _ => []
  | x :: xs, seen =>
      if x ∈ seen then uniqueIdsAux xs seen else x :: uniqueIdsAux xs (x :: seen)

/-- `pandas.unique` over a column: the distinct values in order of first
appearance. -/
def uniqueIds (l : List Nat) : List Nat :=
  uniqueIdsAux l []

/-- Insert a row into a list sorted ascending by hour. -/
def insertByHour (r : TSRow) : List TSRow → List TSRow
  | [] => [r]
  | x :: xs => if r.hour ≤ x.hour then r :: x :: xs else x :: insertByHour r xs

/-- `DataFrame.sort_values(by=[f"{scenario}_hour"])` (line 51 of
`training_data.py`), modelled as a comparison sort by the hour column.
(pandas' default quicksort leaves the relative order of equal hours
unspecified; no claim below depends on it.) -/
def sortByHour : List TSRow → List TSRow
  | [] => []
  | x :: xs => insertByHour x (sortByHour xs)

/-- The `for station_id in ts_data[...].unique()` loop of
`transform_ts_into_training_data` (lines 42–100): per-station frames are
processed in first-appearance order of the station id, each filtered from the
full table and sorted by hour, and the resulting row blocks are concatenated
sequentially (lines 99–100). -/
def transformLoop (input_seq_len step : Nat) (ts : List TSRow) :
    List Nat → Option (List TrainingRow)
  | [] => some []
  | sid :: rest =>
      match station_rows input_seq_len step
          (sortByHour (ts.filter (fun r => r.station_id == sid))) sid,
        transformLoop input_seq_len step ts rest with
      | some b, some bs => some (b ++ bs)
      | _, _ => none

/-- Embedding of the row-assembly portion of `transform_ts_into_training_data`
(lines 42–103): the feature/target rows for all stations, in loop order.  The
subsequent external feature engineering and parquet persistence (lines
105–113) are outside the embedded scope (and line 108 of the
`transformations` revision would raise `TypeError` on `list(a, b)` before
returning). -/
def transform_ts_into_training_data (input_seq_len step : Nat) (ts : List TSRow) :
    Option (List TrainingRow) :=
  transformLoop input_seq_len step ts (uniqueIds (ts.map TSRow.station_id))

/-- Lexicographic (station_id, hour) nondecreasing order between training
rows. -/
def stationHourLE (a b : TrainingRow) : Prop :=
  a.station_id < b.station_id ∨ (a.station_id = b.station_id ∧ a.hour ≤ b.hour)

instance (a b : TrainingRow) : Decidable (stationHourLE a b) := by
  unfold stationHourLE
  infer_instance

/-- `rows` splits into contiguous blocks, one per entry of `stations` in
order, every row of a block carrying that block's station id. -/
def GroupedByStation (stations : List Nat) (rows : List TrainingRow) : Prop :=
  ∃ blocks : List (List TrainingRow),
    blocks.length = stations.length ∧
    rows = blocks.flatten ∧
    ∀ p ∈ blocks.zip stations, ∀ r ∈ p.1, r.station_id = p.2

/-- The time-series table used in the C7 counterexample: station 2 appears
before station 1. -/
def exampleTS : List TSRow :=
  [⟨0, 2, 5⟩, ⟨0, 1, 7⟩]

/-! ## Station-identity map reconciliation (`core.py`, lines 56–73)

The two JSON side files are dictionaries from stringified rounded coordinates
to synthetic integer ids; they are modelled as association lists with
first-occurrence lookup (Python dictionaries have unique keys). -/

/-- Python `dict` lookup. -/
def dictLookup {K : Type} [DecidableEq K] (k : K) : List (K × Nat) → Option Nat
  | [] => none
  | (k', v) :: rest => if k' = k then some v else dictLookup k rest

/-- Python `dict` assignment `d[k] = v`: replace the value at an existing
key, otherwise append the binding. -/
def dictSet {K : Type} [DecidableEq K] (k : K) (v : Nat) :
    List (K × Nat) → List (K × Nat)
  | [] => [(k, v)]
  | (k', v') :: rest => if k' = k then (k, v) :: rest else (k', v') :: dictSet k v rest

/-- Lines 66–69 of `core.py`: the coordinate keys of the start-side map that
are also keys of the end-side map. -/
def commonPoints {K : Type} [DecidableEq K] (ds de : List (K × Nat)) : List K :=
  (ds.map Prod.fst).filter (fun p => (dictLookup p de).isSome)

/-- One iteration of the `for point in common_points` loop (lines 72–73 of
`core.py`): `rounded_start_points_and_ids[point] = rounded_end_points_and_ids[point]`. -/
def reconcileStep {K : Type} [DecidableEq K] (de : List (K × Nat))
    (acc : List (K × Nat)) (p : K) : List (K × Nat) :=
  match dictLookup p de with
  | some v => dictSet p v acc
  | none => acc

/-- The reconciliation pass of `transform_cleaned_data_into_ts` (lines 66–73
of `core.py`) as a function of the two coordinate→id maps: for every common
key the start-side map is overwritten with the end-side id; the end-side map
is untouched. -/
def reconcile_maps {K : Type} [DecidableEq K] (ds de : List (K × Nat)) :
    List (K × Nat) × List (K × Nat) :=
  ((commonPoints ds de).foldl (reconcileStep de) ds, de)

/-! ## Station-indexing policy (`choice.py`) -/

/-- A trip scenario: departures (`start`) or arrivals (`end`). -/
inductive Scenario where
  | start
  | end_
  deriving DecidableEq, Repr

/-- A cleaned trips table: per row, the `start_station_id` and
`end_station_id` columns.  `none` models a null id; a present id is kept in
its string form, matching `len(str(station_id))` in the source. -/
structure TripTable where
  rows : List (Option String × Option String)
  deriving DecidableEq, Repr

/-- The `{scenario}_station_id` column. -/
def scenario_ids (t : TripTable) : Scenario → List (Option String)
  | .start => t.rows.map Prod.fst
  | .end_ => t.rows.map Prod.snd

/-- Line 56 of `choice.py`:
`len(str(station_id)) >= 7 and not pd.isnull(station_id)`. -/
def long_id_bool : Option String → Bool
  | some s => decide (7 ≤ s.length)
  | none => false

/-- The `long_id_count` accumulated by the loop of lines 53–57. -/
def long_id_count (col : List (Option String)) : Nat :=
  (col.filter long_id_bool).length

/-- Line 59: `data[...].isna().sum()`. -/
def missing_count (col : List (Option String)) : Nat :=
  (col.filter (fun x => x.isNone)).length

/-- Line 60: `(number_of_missing_indices + long_id_count) / data.shape[0]`,
with exact rational division standing in for Python float division. -/
def proportion_of_problem_rows (t : TripTable) (sc : Scenario) : ℚ :=
  (((missing_count (scenario_ids t sc) + long_id_count (scenario_ids t sc) : Nat)) : ℚ) /
    ((t.rows.length : Nat) : ℚ)

/-- Line 61: `True if proportion_of_problem_rows >= 0.5 else False`. -/
def scenario_result (t : TripTable) (sc : Scenario) : Bool :=
  decide ((1 : ℚ) / 2 ≤ proportion_of_problem_rows t sc)

/-- Embedding of `check_if_we_use_custom_station_indexing` (lines 28–64 of
`choice.py`).  Line 49 is `assert for_inference`: calling the function on a
non-inference dataset raises `AssertionError` before any ratio is computed.
The return value `False not in results` is `true` iff every considered
scenario has a problem-row proportion of at least one half.  An empty table
with at least one scenario to check raises `ZeroDivisionError` at line 60. -/
def check_if_we_use_custom_station_indexing (t : TripTable) (for_inference : Bool)
    (scenarios : List Scenario) : Except PyErr Bool :=
  if for_inference then
    if t.rows.length = 0 ∧ scenarios ≠ [] then .error .zeroDivisionError
    else .ok (scenarios.all (scenario_result t))
  else .error .assertionError

/-- The indexing method selected by `investigate_making_new_station_ids`. -/
inductive IndexerChoice where
  | roundingIndexer
  | mixedIndexer
  deriving DecidableEq, Repr

/-- The policy `match` of `investigate_making_new_station_ids` (lines 113–137
of `choice.py`) as a function of the two check results: `(True, True)` runs
the rounding indexer, `(True, False)` the mixed indexer, and `(False, _)`
raises `NotImplementedError` instead of falling back to native station ids.
(As written, the source also omits the required `for_inference` argument in
both check calls, so in Python the calls themselves raise `TypeError`; the
`match` here models the decision on given check results.) -/
def investigate_choice (custom tie : Bool) : Except PyErr IndexerChoice :=
  match custom, tie with
  | true, true => .ok .roundingIndexer
  | true, false => .ok .mixedIndexer
  | false, _ => .error .notImplementedError

/-! ## TripAggregator (`core.py`, lines 165–172) -/

/-- Embedding of `aggregate_final_ts`: group the interim rows by
`({scenario}_hour, {scenario}_station_id)` and count the rows of each group
(`groupby(columns).size()`), renaming the count column to `"trips"`.  An
input row is modelled by its `(hour, station_id)` pair; the output lists each
distinct pair present in the input with its multiplicity.  (pandas
additionally sorts the group keys; no claim depends on the output order.) -/
def aggregate_final_ts (rows : List (Nat × Nat)) : List ((Nat × Nat) × Nat) :=
  rows.dedup.map (fun k => (k, rows.count k))

/-! ## Loop lemmas: the iteration bound is irrelevant once sufficient -/

/-- If the loop guard already fails, any amount of fuel yields the empty list. -/
theorem runStandardLoop_of_gt (stop : Int) (step first mid last : Nat)
    (h : ¬ (last : Int) ≤ stop) :
    ∀ fuel, runStandardLoop stop step fuel first mid last = [] := by
  intro fuel
  cases fuel <;> simp [runStandardLoop, h]

/-- Any two sufficient fuel values produce the same standard-indexer output,
provided `step ≥ 1` (for `step = 0` the Python loop diverges). -/
theorem runStandardLoop_fuel (stop : Int) (step : Nat) (hstep : 0 < step) :
    ∀ (fuel₁ fuel₂ first mid last : Nat),
      (stop + 1 - (last : Int)).toNat ≤ fuel₁ →
      (stop + 1 - (last : Int)).toNat ≤ fuel₂ →
      runStandardLoop stop step fuel₁ first mid last =
        runStandardLoop stop step fuel₂ first mid last := by
  intro fuel₁
  induction fuel₁ with
  | zero =>
      intro fuel₂ first mid last h1 _h2
      have hgt : ¬ (last : Int) ≤ stop := by omega
      rw [runStandardLoop_of_gt stop step first mid last hgt,
        runStandardLoop_of_gt stop step first mid last hgt]
  | succ n ih =>
      intro fuel₂ first mid last h1 h2
      by_cases h : (last : Int) ≤ stop
      · have hm : 1 ≤ (stop + 1 - (last : Int)).toNat := by omega
        obtain ⟨m, rfl⟩ : ∃ m, fuel₂ = m + 1 := by
          cases fuel₂ with
          | zero => omega
          | succ m => exact ⟨m, rfl⟩
        simp only [runStandardLoop, h, if_true]
        have hb : (stop + 1 - ((last + step : Nat) : Int)).toNat ≤ n := by
          push_cast
          omega
        have hb' : (stop + 1 - ((last + step : Nat) : Int)).toNat ≤ m := by
          push_cast
          omega
        rw [ih m (first + step) (mid + step) (last + step) hb hb']
      · rw [runStandardLoop_of_gt stop step first mid last h,
          runStandardLoop_of_gt stop step first mid last h]

/-- Unfolding: when the guard fails, the standard indexer returns `[]`. -/
theorem run_standard_nil (stop : Int) (step first mid last : Nat)
    (h : ¬ (last : Int) ≤ stop) :
    run_standard_cutoff_indexer stop step first mid last = [] := by
  unfold run_standard_cutoff_indexer
  exact runStandardLoop_of_gt stop step first mid last h _

/-- Unfolding: when the guard holds, the standard indexer emits the current
triple and continues with all indices advanced by `step`. -/
theorem run_standard_cons (stop : Int) (step first mid last : Nat)
    (hstep : 0 < step) (h : (last : Int) ≤ stop) :
    run_standard_cutoff_indexer stop step first mid last =
      (first, mid, last) ::
        run_standard_cutoff_indexer stop step (first + step) (mid + step) (last + step) := by
  have hm : 1 ≤ (stop + 1 - (last : Int)).toNat := by omega
  obtain ⟨n, hn⟩ : ∃ n, (stop + 1 - (last : Int)).toNat = n + 1 := by
    cases hx : (stop + 1 - (last : Int)).toNat with
    | zero => omega
    | succ n => exact ⟨n, rfl⟩
  unfold run_standard_cutoff_indexer
  rw [hn]
  simp only [runStandardLoop, h, if_true]
  refine congrArg _ ?_
  exact runStandardLoop_fuel stop step hstep n _ (first + step) (mid + step) (last + step)
    (by push_cast; omega) (le_refl _)

/-- If the loop guard already fails, any amount of fuel yields the empty list
(modified indexer). -/
theorem runModifiedLoop_of_gt (stop : Int) (step first mid last : Nat)
    (h : ¬ (mid : Int) ≤ stop) :
    ∀ fuel, runModifiedLoop stop step fuel first mid last = [] := by
  intro fuel
  cases fuel <;> simp [runModifiedLoop, h]

/-- Any two sufficient fuel values produce the same modified-indexer output,
provided `step ≥ 1`. -/
theorem runModifiedLoop_fuel (stop : Int) (step : Nat) (hstep : 0 < step) :
    ∀ (fuel₁ fuel₂ first mid last : Nat),
      (stop + 1 - (mid : Int)).toNat ≤ fuel₁ →
      (stop + 1 - (mid : Int)).toNat ≤ fuel₂ →
      runModifiedLoop stop step fuel₁ first mid last =
        runModifiedLoop stop step fuel₂ first mid last := by
  intro fuel₁
  induction fuel₁ with
  | zero =>
      intro fuel₂ first mid last h1 _h2
      have hgt : ¬ (mid : Int) ≤ stop := by omega
      rw [runModifiedLoop_of_gt stop step first mid last hgt,
        runModifiedLoop_of_gt stop step first mid last hgt]
  | succ n ih =>
      intro fuel₂ first mid last h1 h2
      by_cases h : (mid : Int) ≤ stop
      · have hm : 1 ≤ (stop + 1 - (mid : Int)).toNat := by omega
        obtain ⟨m, rfl⟩ : ∃ m, fuel₂ = m + 1 := by
          cases fuel₂ with
          | zero => omega
          | succ m => exact ⟨m, rfl⟩
        simp only [runModifiedLoop, h, if_true]
        have hb : (stop + 1 - ((mid + step : Nat) : Int)).toNat ≤ n := by
          push_cast
          omega
        have hb' : (stop + 1 - ((mid + step : Nat) : Int)).toNat ≤ m := by
          push_cast
          omega
        rw [ih m (first + step) (mid + step) (last + step) hb hb']
      · rw [runModifiedLoop_of_gt stop step first mid last h,
          runModifiedLoop_of_gt stop step first mid last h]

/-- Unfolding: when the guard fails, the modified indexer returns `[]`. -/
theorem run_modified_nil (stop : Int) (step first mid last : Nat)
    (h : ¬ (mid : Int) ≤ stop) :
    run_modified_cutoff_indexer stop step first mid last = [] := by
  unfold run_modified_cutoff_indexer
  exact runModifiedLoop_of_gt stop step first mid last h _

/-- Unfolding: when the guard holds, the modified indexer emits the current
triple and continues with all indices advanced by `step`. -/
theorem run_modified_cons (stop : Int) (step first mid last : Nat)
    (hstep : 0 < step) (h : (mid : Int) ≤ stop) :
    run_modified_cutoff_indexer stop step first mid last =
      (first, mid, last) ::
        run_modified_cutoff_indexer stop step (first + step) (mid + step) (last + step) := by
  have hm : 1 ≤ (stop + 1 - (mid : Int)).toNat := by omega
  obtain ⟨n, hn⟩ : ∃ n, (stop + 1 - (mid : Int)).toNat = n + 1 := by
    cases hx : (stop + 1 - (mid : Int)).toNat with
    | zero => omega
    | succ n => exact ⟨n, rfl⟩
  unfold run_modified_cutoff_indexer
  rw [hn]
  simp only [runModifiedLoop, h, if_true]
  refine congrArg _ ?_
  exact runModifiedLoop_fuel stop step hstep n _ (first + step) (mid + step) (last + step)
    (by push_cast; omega) (le_refl _)

/-- Exactly the triples `(first + k·step, mid + k·step, last + k·step)` with
`last + k·step ≤ stop` appear in the standard indexer output. -/
theorem mem_run_standard (stop : Int) (step : Nat) (hstep : 0 < step)
    (first mid last : Nat) (t : Nat × Nat × Nat) :
    t ∈ run_standard_cutoff_indexer stop step first mid last ↔
      ∃ k : Nat, t = (first + k * step, mid + k * step, last + k * step) ∧
        ((last + k * step : Nat) : Int) ≤ stop := by
  by_cases h : (last : Int) ≤ stop
  · rw [run_standard_cons stop step first mid last hstep h, List.mem_cons,
      mem_run_standard stop step hstep (first + step) (mid + step) (last + step) t]
    constructor
    · rintro (rfl | ⟨k, rfl, hk⟩)
      · exact ⟨0, by simp, by simpa using h⟩
      · refine ⟨k + 1, ?_, ?_⟩
        · simp only [Prod.mk.injEq]
          refine ⟨by ring, by ring, by ring⟩
        · have e : last + step + k * step = last + (k + 1) * step := by ring
          rw [e] at hk
          exact hk
    · rintro ⟨k, rfl, hk⟩
      cases k with
      | zero => left; simp
      | succ k =>
          right
          refine ⟨k, ?_, ?_⟩
          · simp only [Prod.mk.injEq]
            refine ⟨by ring, by ring, by ring⟩
          · have e : last + step + k * step = last + (k + 1) * step := by ring
            rw [e]
            exact hk
  · rw [run_standard_nil stop step first mid last h]
    simp only [List.not_mem_nil, false_iff, not_exists, not_and]
    intro k _
    intro hk
    exact h (le_trans (by exact_mod_cast Nat.le_add_right last (k * step)) hk)
termination_by (stop + 1 - (last : Int)).toNat
decreasing_by
  push_cast
  omega

/-- The standard indexer output is strictly increasing in its first
component. -/
theorem pairwise_run_standard (stop : Int) (step : Nat) (hstep : 0 < step)
    (first mid last : Nat) :
    (run_standard_cutoff_indexer stop step first mid last).Pairwise
      (fun a b => a.1 < b.1) := by
  by_cases h : (last : Int) ≤ stop
  · rw [run_standard_cons stop step first mid last hstep h]
    refine List.Pairwise.cons ?_
      (pairwise_run_standard stop step hstep (first + step) (mid + step) (last + step))
    intro b hb
    rw [mem_run_standard stop step hstep (first + step) (mid + step) (last + step) b] at hb
    obtain ⟨k, rfl, -⟩ := hb
    exact lt_of_lt_of_le (Nat.lt_add_of_pos_right hstep) (Nat.le_add_right (first + step) (k * step))
  · rw [run_standard_nil stop step first mid last h]
    exact List.Pairwise.nil
termination_by (stop + 1 - (last : Int)).toNat
decreasing_by
  push_cast
  omega

/-- Exactly the triples `(first + k·step, mid + k·step, last + k·step)` with
`mid + k·step ≤ stop` appear in the modified indexer output: the stopping
bound is on `mid`, not `last`. -/
theorem mem_run_modified (stop : Int) (step : Nat) (hstep : 0 < step)
    (first mid last : Nat) (t : Nat × Nat × Nat) :
    t ∈ run_modified_cutoff_indexer stop step first mid last ↔
      ∃ k : Nat, t = (first + k * step, mid + k * step, last + k * step) ∧
        ((mid + k * step : Nat) : Int) ≤ stop := by
  by_cases h : (mid : Int) ≤ stop
  · rw [run_modified_cons stop step first mid last hstep h, List.mem_cons,
      mem_run_modified stop step hstep (first + step) (mid + step) (last + step) t]
    constructor
    · rintro (rfl | ⟨k, rfl, hk⟩)
      · exact ⟨0, by simp, by simpa using h⟩
      · refine ⟨k + 1, ?_, ?_⟩
        · simp only [Prod.mk.injEq]
          refine ⟨by ring, by ring, by ring⟩
        · have e : mid + step + k * step = mid + (k + 1) * step := by ring
          rw [e] at hk
          exact hk
    · rintro ⟨k, rfl, hk⟩
      cases k with
      | zero => left; simp
      | succ k =>
          right
          refine ⟨k, ?_, ?_⟩
          · simp only [Prod.mk.injEq]
            refine ⟨by ring, by ring, by ring⟩
          · have e : mid + step + k * step = mid + (k + 1) * step := by ring
            rw [e]
            exact hk
  · rw [run_modified_nil stop step first mid last h]
    simp only [List.not_mem_nil, false_iff, not_exists, not_and]
    intro k _
    intro hk
    exact h (le_trans (by exact_mod_cast Nat.le_add_right mid (k * step)) hk)
termination_by (stop + 1 - (mid : Int)).toNat
decreasing_by
  push_cast
  omega

/-- The head of a one-element take is the head of the list. -/
theorem head?_take_one {α : Type} (l : List α) : (l.take 1).head? = l.head? := by
  cases l <;> simp

/-- The head after dropping `n` elements is the element at position `n`. -/
theorem head?_drop {α : Type} (n : Nat) (l : List α) : (l.drop n).head? = l.get? n := by
  induction n generalizing l with
  | zero => cases l <;> simp
  | succ n ih =>
      cases l with
      | nil => simp
      | cons a tail => simp [ih tail]

/-- Numpy assignment of an exact-width array copies it. -/
theorem npBroadcastRow_of_length (width : Nat) (vs : List Nat)
    (h : vs.length = width) : npBroadcastRow width vs = some vs := by
  match vs with
  | [] => simp [npBroadcastRow, h]
  | [v] =>
      simp only [List.length_singleton] at h
      subst h
      simp [npBroadcastRow]
  | v₁ :: v₂ :: rest => simp [npBroadcastRow, h]

/-- `get?` commutes with `map`. -/
theorem get?_of_map {α β : Type} (f : α → β) (l : List α) (n : Nat) :
    (l.map f).get? n = (l.get? n).map f := by
  induction l generalizing n with
  | nil => simp
  | cons a tail ih =>
      cases n with
      | zero => simp
      | succ n => simp [ih n]

/-- A list position below the length holds a value. -/
theorem get?_isSome_of_lt {α : Type} (l : List α) (n : Nat) (h : n < l.length) :
    ∃ a, l.get? n = some a := by
  cases hx : l.get? n with
  | none => exact absurd (List.get?_eq_none.mp hx) (by omega)
  | some a => exact ⟨a, rfl⟩

/-! ## Claims C1, C4, C5 -/

/-- Claim C1: the standard (Regime A) indexer is selected if and only if
`L - 1 ≥ input_seq_len + 1`; the selection depends only on `L` and
`input_seq_len` (the arguments of `use_standard_cutoff_indexer`); a series of
length `input_seq_len + 2` is indexed by Regime A, one of length
`input_seq_len + 1` is not and, whenever its length is at least 2, it is
handed to the modified (Regime B) indexer. -/
theorem regime_selection (L input_seq_len step : Nat) :
    (use_standard_cutoff_indexer L input_seq_len = true ↔
      (L : Int) - 1 ≥ (input_seq_len : Int) + 1)
    ∧ use_standard_cutoff_indexer (input_seq_len + 2) input_seq_len = true
    ∧ use_standard_cutoff_indexer (input_seq_len + 1) input_seq_len = false
    ∧ (2 ≤ input_seq_len + 1 →
        get_cutoff_indices (use_standard_cutoff_indexer (input_seq_len + 1) input_seq_len)
            (input_seq_len + 1) input_seq_len step =
          .triples (run_modified_cutoff_indexer ((input_seq_len + 1 : Nat) - 1 : Int) step 0 1 2)) := by
  have h3 : use_standard_cutoff_indexer (input_seq_len + 1) input_seq_len = false := by
    simp only [use_standard_cutoff_indexer, decide_eq_false_iff_not]
    push_cast
    omega
  refine ⟨?_, ?_, h3, ?_⟩
  · simp [use_standard_cutoff_indexer]
  · simp only [use_standard_cutoff_indexer, decide_eq_true_eq]
    push_cast
    omega
  · intro h2
    rw [h3]
    simp [get_cutoff_indices, h2]

/-- Witness for C1: at `input_seq_len = 3`, a series of length 4 falls to the
modified indexer. -/
theorem regime_selection_witness :
    get_cutoff_indices (use_standard_cutoff_indexer (3 + 1) 3) (3 + 1) 3 1 =
      .triples (run_modified_cutoff_indexer ((3 + 1 : Nat) - 1 : Int) 1 0 1 2) :=
  (regime_selection 4 3 1).2.2.2 (by norm_num)

/-- Claim C4: for every input, constructing `CutoffIndexer` raises
`AttributeError` and never returns an object: line 21 of `cutoffs.py` calls
`self.get_cutoff_indices()`, which reads `self.use_standard_indexer`, before
line 22 assigns that attribute. -/
theorem init_raises_attribute_error (L input_seq_len step : Nat) :
    cutoffIndexer_init L input_seq_len step = .error .attributeError := rfl

/-- Counterexample to claim C5: for an empty series (`L = 0`, here with
`input_seq_len = 672` and `step_size = 1`) `get_cutoff_indices` falls through
every branch and returns Python's `None` — a non-error value — instead of
raising an `EmptySeriesError` (no such exception class exists in the
repository); the only exception the indexing step can raise is the
`AttributeError` from the constructor bug. -/
theorem empty_series_cex :
    get_cutoff_indices (use_standard_cutoff_indexer 0 672) 0 672 1 = .pyNone
    ∧ cutoffIndexer_init 0 672 1 = .error .attributeError :=
  ⟨rfl, rfl⟩

/-- Claim C5 as amended: for every empty per-station series (`L = 0`) the
cutoff indexing step does not raise an `EmptySeriesError` (no such exception
exists in the code); the `get_cutoff_indices` method returns the non-error
value `None`, and constructing the `CutoffIndexer` object raises
`AttributeError` (as it does for every input). -/
theorem empty_series_behavior (input_seq_len step : Nat) :
    get_cutoff_indices (use_standard_cutoff_indexer 0 input_seq_len) 0 input_seq_len step = .pyNone
    ∧ cutoffIndexer_init 0 input_seq_len step = .error .attributeError := by
  refine ⟨?_, rfl⟩
  have hflag : use_standard_cutoff_indexer 0 input_seq_len = false := by
    simp only [use_standard_cutoff_indexer, decide_eq_false_iff_not]
    push_cast
    omega
  rw [hflag]
  rfl

/-! ## Claims C2, C3 -/

/-- Counterexample to claim C2: on the spec's own example (counts
`[2,3,1,4,2]` at hours `0..4`, `input_seq_len = 3`, `step_size = 1`) the
triple list is `[(0,3,4)]` and the feature window is `[2,3,1]` as claimed,
but the materialized target is the trips value at row `last = 4`, which is
`2` — not `4` as the claim's concrete example asserts. -/
theorem standard_target_cex :
    run_standard_cutoff_indexer (((5 : Nat) : Int) - 1) 1 0 3 (3 + 1) = [(0, 3, 4)]
    ∧ station_rows 3 1 exampleSeries 7 =
        some [{ features := [2, 3, 1], hour := 3, station_id := 7, target := 2 }]
    ∧ (2 : Nat) ≠ 4 := by
  refine ⟨by decide, by decide, by decide⟩

/-- Claim C2 as amended: for every series of length `L ≥ input_seq_len + 2`
and every `step_size ≥ 1`, the standard indexer returns exactly the triples
`(k·step, k·step + input_seq_len, k·step + input_seq_len + 1)` for
`k = 0, 1, 2, …` as long as the last component is `≤ L - 1`, in increasing
order, and the materializer emits for each triple the trips values at rows
`[first, mid)` oldest-first as the feature window and the trips value at row
`last` as the target; on the spec's example series the triple list is
`[(0,3,4)]` with feature window `[2,3,1]` and target `2` (the trips value at
row 4 — not `4` as the original claim stated). -/
theorem standard_regime_spec (L input_seq_len step : Nat) (series : List TSRow)
    (sid : Nat) (hL : input_seq_len + 2 ≤ L) (hstep : 0 < step)
    (hlen : series.length = L) :
    (∀ t : Nat × Nat × Nat,
        t ∈ run_standard_cutoff_indexer ((L : Int) - 1) step 0 input_seq_len
              (input_seq_len + 1) ↔
          ∃ k : Nat,
            t = (k * step, k * step + input_seq_len, k * step + input_seq_len + 1) ∧
            k * step + input_seq_len + 1 ≤ L - 1)
    ∧ (run_standard_cutoff_indexer ((L : Int) - 1) step 0 input_seq_len
          (input_seq_len + 1)).Pairwise (fun a b => a.1 < b.1)
    ∧ (∀ t ∈ run_standard_cutoff_indexer ((L : Int) - 1) step 0 input_seq_len
          (input_seq_len + 1),
        ∃ r : TrainingRow,
          standard_row input_seq_len series sid t = some r ∧
          r.features = window_slice (series.map TSRow.trips) t.1 t.2.1 ∧
          (series.map TSRow.trips).get? t.2.2 = some r.target)
    ∧ station_rows 3 1 exampleSeries 7 =
        some [{ features := [2, 3, 1], hour := 3, station_id := 7, target := 2 }] := by
  have hmem := mem_run_standard ((L : Int) - 1) step hstep 0 input_seq_len (input_seq_len + 1)
  refine ⟨?_, pairwise_run_standard _ _ hstep _ _ _, ?_, by decide⟩
  · intro t
    rw [hmem t]
    constructor
    · rintro ⟨k, rfl, hk⟩
      refine ⟨k, ?_, ?_⟩
      · simp only [Prod.mk.injEq]
        refine ⟨by ring, by ring, by ring⟩
      · generalize hks : k * step = ks at hk ⊢
        omega
    · rintro ⟨k, rfl, hk⟩
      refine ⟨k, ?_, ?_⟩
      · simp only [Prod.mk.injEq]
        refine ⟨by ring, by ring, by ring⟩
      · generalize hks : k * step = ks at hk ⊢
        omega
  · intro t ht
    rw [hmem t] at ht
    obtain ⟨k, rfl, hk⟩ := ht
    have hb : input_seq_len + 1 + k * step ≤ L - 1 := by
      generalize hks : k * step = ks at hk ⊢
      omega
    obtain ⟨mr, hmr⟩ := get?_isSome_of_lt series (input_seq_len + k * step)
      (by rw [hlen]; generalize hks : k * step = ks at hb ⊢; omega)
    obtain ⟨lr, hlr⟩ := get?_isSome_of_lt series (input_seq_len + 1 + k * step)
      (by rw [hlen]; generalize hks : k * step = ks at hb ⊢; omega)
    have hslen : (window_slice (series.map TSRow.trips) (0 + k * step)
        (input_seq_len + k * step)).length = input_seq_len := by
      simp only [window_slice, List.length_take, List.length_drop, List.length_map, hlen]
      generalize hks : k * step = ks at hb ⊢
      omega
    have hbr := npBroadcastRow_of_length input_seq_len _ hslen
    refine ⟨{ features := window_slice (series.map TSRow.trips) (0 + k * step)
                (input_seq_len + k * step),
              hour := mr.hour, station_id := sid, target := lr.trips }, ?_, rfl, ?_⟩
    · simp only [standard_row, hmr, hlr, hbr]
    · simp only [get?_of_map, hlr, Option.map_some']

/-- Witness for C2 (amended): the characterization and the example evaluated
at `L = 5`, `input_seq_len = 3`, `step_size = 1`. -/
theorem standard_regime_spec_witness :
    ((0, 3, 4) ∈ run_standard_cutoff_indexer (((5 : Nat) : Int) - 1) 1 0 3 (3 + 1) ↔
      ∃ k : Nat, (0, 3, 4) = (k * 1, k * 1 + 3, k * 1 + 3 + 1) ∧ k * 1 + 3 + 1 ≤ 5 - 1)
    ∧ station_rows 3 1 exampleSeries 7 =
        some [{ features := [2, 3, 1], hour := 3, station_id := 7, target := 2 }] :=
  ⟨(standard_regime_spec 5 3 1 exampleSeries 7 (by norm_num) (by norm_num) rfl).1 (0, 3, 4),
   (standard_regime_spec 5 3 1 exampleSeries 7 (by norm_num) (by norm_num) rfl).2.2.2⟩

/-- Claim C3: for every series of length `L` with `2 ≤ L` and
`L - 1 < input_seq_len + 1` (Regime B), the selection falls to the modified
indexer, which returns exactly the triples `(k·step, k·step + 1, k·step + 2)`
for as long as the **mid** component is `≤ L - 1` (mid, not last, is the
stopping bound), and for each such triple the materialized target is the
trips value at row `mid`, not at row `last`. -/
theorem modified_regime_spec (L input_seq_len step : Nat) (series : List TSRow)
    (sid : Nat) (hL : 2 ≤ L) (hB : L - 1 < input_seq_len + 1) (hstep : 0 < step)
    (hlen : series.length = L) :
    use_standard_cutoff_indexer L input_seq_len = false
    ∧ get_cutoff_indices (use_standard_cutoff_indexer L input_seq_len) L input_seq_len step =
        .triples (run_modified_cutoff_indexer ((L : Int) - 1) step 0 1 2)
    ∧ (∀ t : Nat × Nat × Nat,
        t ∈ run_modified_cutoff_indexer ((L : Int) - 1) step 0 1 2 ↔
          ∃ k : Nat, t = (k * step, k * step + 1, k * step + 2) ∧ k * step + 1 ≤ L - 1)
    ∧ (∀ t ∈ run_modified_cutoff_indexer ((L : Int) - 1) step 0 1 2,
        ∃ r : TrainingRow,
          modified_row input_seq_len series sid t = some r ∧
          (series.map TSRow.trips).get? t.2.1 = some r.target) := by
  have hflag : use_standard_cutoff_indexer L input_seq_len = false := by
    simp only [use_standard_cutoff_indexer, decide_eq_false_iff_not]
    omega
  refine ⟨hflag, ?_, ?_, ?_⟩
  · rw [hflag]
    simp [get_cutoff_indices, hL]
  · intro t
    rw [mem_run_modified ((L : Int) - 1) step hstep 0 1 2 t]
    constructor
    · rintro ⟨k, rfl, hk⟩
      refine ⟨k, ?_, ?_⟩
      · simp only [Prod.mk.injEq]
        refine ⟨by ring, by ring, by ring⟩
      · generalize hks : k * step = ks at hk ⊢
        omega
    · rintro ⟨k, rfl, hk⟩
      refine ⟨k, ?_, ?_⟩
      · simp only [Prod.mk.injEq]
        refine ⟨by ring, by ring, by ring⟩
      · generalize hks : k * step = ks at hk ⊢
        omega
  · intro t ht
    rw [mem_run_modified ((L : Int) - 1) step hstep 0 1 2 t] at ht
    obtain ⟨k, rfl, hk⟩ := ht
    have hb : 1 + k * step ≤ L - 1 := by
      generalize hks : k * step = ks at hk ⊢
      omega
    have hmlt : 1 + k * step < series.length := by
      rw [hlen]
      generalize hks : k * step = ks at hb ⊢
      omega
    obtain ⟨mr, hmr⟩ := get?_isSome_of_lt series (1 + k * step) hmlt
    have hmlt' : 1 + k * step < (series.map TSRow.trips).length := by
      simpa using hmlt
    obtain ⟨tv, htv⟩ := get?_isSome_of_lt (series.map TSRow.trips) (1 + k * step) hmlt'
    have htarget : (window_slice (series.map TSRow.trips) (1 + k * step) (2 + k * step)).head?
        = some tv := by
      unfold window_slice
      have h21 : 2 + k * step - (1 + k * step) = 1 := by
        generalize hks : k * step = ks
        omega
      rw [h21, head?_take_one, head?_drop, htv]
    have hflen : (window_slice (series.map TSRow.trips) (0 + k * step)
        (1 + k * step)).length = 1 := by
      simp only [window_slice, List.length_take, List.length_drop, List.length_map, hlen]
      generalize hks : k * step = ks at hb ⊢
      omega
    obtain ⟨v, hv⟩ := List.length_eq_one.mp hflen
    have hbr : npBroadcastRow input_seq_len (window_slice (series.map TSRow.trips)
        (0 + k * step) (1 + k * step)) = some (List.replicate input_seq_len v) := by
      rw [hv]
      rfl
    refine ⟨{ features := List.replicate input_seq_len v, hour := mr.hour
              station_id := sid, target := tv }, ?_, htv⟩
    simp only [modified_row, hmr, htarget, hbr]

/-- Witness for C3: Regime B selection and characterization evaluated at
`L = 2`, `input_seq_len = 3`, `step_size = 1` on a concrete two-row series. -/
theorem modified_regime_spec_witness :
    use_standard_cutoff_indexer 2 3 = false
    ∧ get_cutoff_indices (use_standard_cutoff_indexer 2 3) 2 3 1 =
        .triples (run_modified_cutoff_indexer (((2 : Nat) : Int) - 1) 1 0 1 2) :=
  ⟨(modified_regime_spec 2 3 1 exampleSeries2 7 (by norm_num) (by norm_num)
      (by norm_num) rfl).1,
   (modified_regime_spec 2 3 1 exampleSeries2 7 (by norm_num) (by norm_num)
      (by norm_num) rfl).2.1⟩

/-! ## Dictionary lemmas and claims C6, C10 -/

/-- Looking up the key just set yields the new value. -/
theorem dictLookup_dictSet_self {K : Type} [DecidableEq K] (k : K) (v : Nat)
    (d : List (K × Nat)) : dictLookup k (dictSet k v d) = some v := by
  induction d with
  | nil => simp [dictSet, dictLookup]
  | cons kv rest ih =>
      obtain ⟨k', v'⟩ := kv
      by_cases h : k' = k
      · simp [dictSet, h, dictLookup]
      · simp [dictSet, h, dictLookup, ih]

/-- Setting one key leaves every other key's lookup unchanged. -/
theorem dictLookup_dictSet_ne {K : Type} [DecidableEq K] (k k₀ : K) (v : Nat)
    (d : List (K × Nat)) (hne : k ≠ k₀) :
    dictLookup k₀ (dictSet k v d) = dictLookup k₀ d := by
  induction d with
  | nil => simp [dictSet, dictLookup, hne]
  | cons kv rest ih =>
      obtain ⟨k', v'⟩ := kv
      by_cases h : k' = k
      · subst h
        simp [dictSet, dictLookup, hne]
      · simp [dictSet, h, dictLookup, ih]

/-- Writing the value a key already holds leaves the dictionary unchanged. -/
theorem dictSet_eq_self {K : Type} [DecidableEq K] (k : K) (v : Nat)
    (d : List (K × Nat)) (h : dictLookup k d = some v) : dictSet k v d = d := by
  induction d with
  | nil => simp [dictLookup] at h
  | cons kv rest ih =>
      obtain ⟨k', v'⟩ := kv
      by_cases hk : k' = k
      · subst hk
        have hv : v' = v := by simpa [dictLookup] using h
        subst hv
        simp [dictSet]
      · simp only [dictLookup, if_neg hk] at h
        simp [dictSet, hk, ih h]

/-- A key has a value exactly when it occurs among the keys. -/
theorem dictLookup_isSome_iff {K : Type} [DecidableEq K] (k : K)
    (d : List (K × Nat)) : (dictLookup k d).isSome ↔ k ∈ d.map Prod.fst := by
  induction d with
  | nil => simp [dictLookup]
  | cons kv rest ih =>
      obtain ⟨k', v'⟩ := kv
      by_cases h : k' = k
      · subst h
        simp [dictLookup]
      · have h' : ¬ k = k' := fun he => h he.symm
        simp [dictLookup, h, h', ih]

/-- Setting a key that is already present preserves the key list. -/
theorem dictSet_keys {K : Type} [DecidableEq K] (k : K) (v : Nat)
    (d : List (K × Nat)) (h : k ∈ d.map Prod.fst) :
    (dictSet k v d).map Prod.fst = d.map Prod.fst := by
  induction d with
  | nil => simp at h
  | cons kv rest ih =>
      obtain ⟨k', v'⟩ := kv
      by_cases hk : k' = k
      · subst hk
        simp [dictSet]
      · simp only [List.map_cons, List.mem_cons] at h
        rcases h with h | h
        · exact absurd h.symm hk
        · simp [dictSet, hk, ih h]

/-- Lookup after the reconciliation fold: a key that is common to the folded
point list and the end-side map resolves to its end-side id; any other key is
untouched. -/
theorem lookup_foldl_reconcileStep {K : Type} [DecidableEq K]
    (de : List (K × Nat)) (k : K) (ps : List K) :
    ∀ acc : List (K × Nat),
      dictLookup k (ps.foldl (reconcileStep de) acc) =
        if k ∈ ps ∧ (dictLookup k de).isSome then dictLookup k de
        else dictLookup k acc := by
  induction ps with
  | nil =>
      intro acc
      simp
  | cons p rest ih =>
      intro acc
      rw [List.foldl_cons, ih (reconcileStep de acc p)]
      by_cases hmem : k ∈ rest ∧ (dictLookup k de).isSome
      · rw [if_pos hmem, if_pos ⟨List.mem_cons_of_mem p hmem.1, hmem.2⟩]
      · rw [if_neg hmem]
        by_cases hpk : p = k
        · subst hpk
          cases hde : dictLookup p de with
          | some v =>
              have hstep : dictLookup p (reconcileStep de acc p) = some v := by
                unfold reconcileStep
                rw [hde]
                exact dictLookup_dictSet_self p v acc
              rw [hstep, if_pos ⟨List.mem_cons_self p rest, by simp [hde]⟩]
          | none =>
              have hstep : reconcileStep de acc p = acc := by
                unfold reconcileStep
                rw [hde]
              rw [hstep, if_neg (by simp [hde])]
        · have hstep : dictLookup k (reconcileStep de acc p) = dictLookup k acc := by
            unfold reconcileStep
            cases hde : dictLookup p de with
            | some v => exact dictLookup_dictSet_ne p k v acc hpk
            | none => rfl
          rw [hstep]
          have hcond : ¬ (k ∈ p :: rest ∧ (dictLookup k de).isSome) := by
            rintro ⟨hin, hs⟩
            rcases List.mem_cons.mp hin with h | h
            · exact hpk h.symm
            · exact hmem ⟨h, hs⟩
          rw [if_neg hcond]

/-- The reconciliation fold is the identity when every folded point already
holds its end-side id. -/
theorem foldl_reconcileStep_eq_self {K : Type} [DecidableEq K]
    (de : List (K × Nat)) (ps : List K) :
    ∀ acc : List (K × Nat),
      (∀ p ∈ ps, ∀ v, dictLookup p de = some v → dictLookup p acc = some v) →
      ps.foldl (reconcileStep de) acc = acc := by
  induction ps with
  | nil =>
      intro acc _
      rfl
  | cons p rest ih =>
      intro acc hacc
      rw [List.foldl_cons]
      have hstep : reconcileStep de acc p = acc := by
        unfold reconcileStep
        cases hde : dictLookup p de with
        | some v => exact dictSet_eq_self p v acc (hacc p (List.mem_cons_self p rest) v hde)
        | none => rfl
      rw [hstep]
      exact ih acc (fun q hq v hv => hacc q (List.mem_cons_of_mem p hq) v hv)

/-- The reconciliation fold never changes the key list when every folded
point is already a key of the accumulator. -/
theorem keys_foldl_reconcileStep {K : Type} [DecidableEq K]
    (de : List (K × Nat)) (ps : List K) :
    ∀ acc : List (K × Nat),
      (∀ p ∈ ps, p ∈ acc.map Prod.fst) →
      (ps.foldl (reconcileStep de) acc).map Prod.fst = acc.map Prod.fst := by
  induction ps with
  | nil =>
      intro acc _
      rfl
  | cons p rest ih =>
      intro acc hacc
      rw [List.foldl_cons]
      have hkeys : (reconcileStep de acc p).map Prod.fst = acc.map Prod.fst := by
        unfold reconcileStep
        cases hde : dictLookup p de with
        | some v => exact dictSet_keys p v acc (hacc p (List.mem_cons_self p rest))
        | none => rfl
      have hrest : ∀ q ∈ rest, q ∈ (reconcileStep de acc p).map Prod.fst := by
        intro q hq
        rw [hkeys]
        exact hacc q (List.mem_cons_of_mem p hq)
      rw [ih (reconcileStep de acc p) hrest, hkeys]

/-- After reconciliation, every key common to both maps resolves in both maps
to the end-side id. -/
theorem reconcile_lookup_common {K : Type} [DecidableEq K]
    (ds de : List (K × Nat)) (k : K)
    (hks : (dictLookup k ds).isSome) (hke : (dictLookup k de).isSome) :
    dictLookup k (reconcile_maps ds de).1 = dictLookup k de ∧
    dictLookup k (reconcile_maps ds de).2 = dictLookup k de := by
  constructor
  · show dictLookup k ((commonPoints ds de).foldl (reconcileStep de) ds) = dictLookup k de
    rw [lookup_foldl_reconcileStep de k (commonPoints ds de) ds]
    have hk : k ∈ commonPoints ds de := by
      unfold commonPoints
      rw [List.mem_filter]
      exact ⟨(dictLookup_isSome_iff k ds).mp hks, hke⟩
    rw [if_pos ⟨hk, hke⟩]
  · rfl

/-- Counterexample to claim C6: for start map `{"a": 1}` and end map
`{"a": 2}`, the reconciliation pass makes the common key `"a"` resolve to
`2` — the end-side id — in both maps, not to the start-side id `1`. -/
theorem reconcile_start_wins_cex :
    dictLookup "a" [("a", 1)] = some 1
    ∧ dictLookup "a" (reconcile_maps [("a", 1)] [("a", 2)]).1 = some 2
    ∧ dictLookup "a" (reconcile_maps [("a", 1)] [("a", 2)]).2 = some 2
    ∧ (some 2 : Option Nat) ≠ some 1 := by
  refine ⟨by decide, by decide, by decide, by decide⟩

/-- Claim C6 as amended: after the reconciliation pass every coordinate key
present in both maps resolves in both maps to the id that the END-side map
assigned to it (line 73 of `core.py` copies the end-side id into the
start-side map, so the end side wins on common keys). -/
theorem reconcile_common_keys (ds de : List (String × Nat)) (k : String)
    (hks : (dictLookup k ds).isSome) (hke : (dictLookup k de).isSome) :
    dictLookup k (reconcile_maps ds de).1 = dictLookup k de ∧
    dictLookup k (reconcile_maps ds de).2 = dictLookup k de :=
  reconcile_lookup_common ds de k hks hke

/-- Witness for C6 (amended): the concrete single-key maps. -/
theorem reconcile_common_keys_witness :
    dictLookup "a" (reconcile_maps [("a", 1)] [("a", 2)]).1 = dictLookup "a" [("a", 2)]
    ∧ dictLookup "a" (reconcile_maps [("a", 1)] [("a", 2)]).2 = dictLookup "a" [("a", 2)] :=
  reconcile_common_keys [("a", 1)] [("a", 2)] "a" (by decide) (by decide)

/-- Claim C10: map reconciliation is idempotent — applying the common-key
merge to the pair produced by a first application leaves both maps unchanged
(the reconciled pair is a fixed point of `reconcile_maps`). -/
theorem reconcile_idempotent (ds de : List (String × Nat)) :
    reconcile_maps (reconcile_maps ds de).1 (reconcile_maps ds de).2 =
      reconcile_maps ds de := by
  have hkeys : ((reconcile_maps ds de).1).map Prod.fst = ds.map Prod.fst := by
    show ((commonPoints ds de).foldl (reconcileStep de) ds).map Prod.fst = ds.map Prod.fst
    apply keys_foldl_reconcileStep
    intro q hq
    unfold commonPoints at hq
    exact (List.mem_filter.mp hq).1
  rw [Prod.ext_iff]
  refine ⟨?_, rfl⟩
  show (commonPoints ((reconcile_maps ds de).1) ((reconcile_maps ds de).2)).foldl
      (reconcileStep ((reconcile_maps ds de).2)) ((reconcile_maps ds de).1) =
    (reconcile_maps ds de).1
  apply foldl_reconcileStep_eq_self
  intro p hp v hv
  unfold commonPoints at hp
  have hp' := List.mem_filter.mp hp
  have hpds : p ∈ ds.map Prod.fst := by
    rw [← hkeys]
    exact hp'.1
  have hpsome : (dictLookup p ds).isSome := (dictLookup_isSome_iff p ds).mpr hpds
  have hcommon := (reconcile_lookup_common ds de p hpsome hp'.2).1
  rw [hcommon]
  exact hv

/-! ## Row-assembly lemmas and claim C7 -/

/-- Every element of a successful `optionMapAll` run comes from some input
element. -/
theorem optionMapAll_mem {α β : Type} (f : α → Option β) (l : List α)
    (bs : List β) (h : optionMapAll f l = some bs) :
    ∀ b ∈ bs, ∃ a ∈ l, f a = some b := by
  induction l generalizing bs with
  | nil =>
      simp only [optionMapAll, Option.some.injEq] at h
      subst h
      simp
  | cons a rest ih =>
      cases hfa : f a with
      | none => simp [optionMapAll, hfa] at h
      | some b₀ =>
          cases hrest : optionMapAll f rest with
          | none => simp [optionMapAll, hfa, hrest] at h
          | some bs₀ =>
              simp only [optionMapAll, hfa, hrest, Option.some.injEq] at h
              subst h
              intro b hb
              rcases List.mem_cons.mp hb with rfl | hb
              · exact ⟨a, List.mem_cons_self a rest, hfa⟩
              · obtain ⟨a', ha', hfa'⟩ := ih bs₀ hrest b hb
                exact ⟨a', List.mem_cons_of_mem a ha', hfa'⟩

/-- A row materialized by the standard regime carries the loop's station id
(line 96 of `training_data.py`). -/
theorem standard_row_sid (input_seq_len : Nat) (series : List TSRow) (sid : Nat)
    (t : Nat × Nat × Nat) (r : TrainingRow)
    (h : standard_row input_seq_len series sid t = some r) : r.station_id = sid := by
  unfold standard_row at h
  cases h1 : series.get? t.2.1 with
  | none =>
      rw [h1] at h
      simp at h
  | some mr =>
      cases h2 : series.get? t.2.2 with
      | none =>
          rw [h1, h2] at h
          simp at h
      | some lr =>
          cases h3 : npBroadcastRow input_seq_len
              (window_slice (series.map TSRow.trips) t.1 t.2.1) with
          | none =>
              rw [h1, h2, h3] at h
              simp at h
          | some feats =>
              rw [h1, h2, h3] at h
              simp only [Option.some.injEq] at h
              rw [← h]

/-- A row materialized by the modified regime carries the loop's station id. -/
theorem modified_row_sid (input_seq_len : Nat) (series : List TSRow) (sid : Nat)
    (t : Nat × Nat × Nat) (r : TrainingRow)
    (h : modified_row input_seq_len series sid t = some r) : r.station_id = sid := by
  unfold modified_row at h
  cases h1 : series.get? t.2.1 with
  | none =>
      rw [h1] at h
      simp at h
  | some mr =>
      cases h2 : (window_slice (series.map TSRow.trips) t.2.1 t.2.2).head? with
      | none =>
          rw [h1, h2] at h
          simp at h
      | some tv =>
          cases h3 : npBroadcastRow input_seq_len
              (window_slice (series.map TSRow.trips) t.1 t.2.1) with
          | none =>
              rw [h1, h2, h3] at h
              simp at h
          | some feats =>
              rw [h1, h2, h3] at h
              simp only [Option.some.injEq] at h
              rw [← h]

/-- Every row of a successful `station_rows` block carries that block's
station id. -/
theorem station_rows_sid (input_seq_len step : Nat) (series : List TSRow)
    (sid : Nat) (b : List TrainingRow)
    (h : station_rows input_seq_len step series sid = some b) :
    ∀ r ∈ b, r.station_id = sid := by
  unfold station_rows at h
  simp only [] at h
  cases hg : get_cutoff_indices (use_standard_cutoff_indexer series.length input_seq_len)
      series.length input_seq_len step with
  | pyNone =>
      rw [hg] at h
      simp at h
  | single =>
      rw [hg] at h
      cases hh : series.head? with
      | none =>
          rw [hh] at h
          simp at h
      | some r₀ =>
          rw [hh] at h
          simp only [Option.some.injEq] at h
          subst h
          intro r hr
          simp only [List.mem_singleton] at hr
          rw [hr]
  | triples idxs =>
      rw [hg] at h
      simp only [] at h
      by_cases hf : use_standard_cutoff_indexer series.length input_seq_len = true
      · rw [if_pos hf] at h
        intro r hr
        obtain ⟨t, -, hrow⟩ := optionMapAll_mem _ idxs b h r hr
        exact standard_row_sid input_seq_len series sid t r hrow
      · rw [if_neg hf] at h
        intro r hr
        obtain ⟨t, -, hrow⟩ := optionMapAll_mem _ idxs b h r hr
        exact modified_row_sid input_seq_len series sid t r hrow

/-- The per-station loop yields blocks in station order, each block's rows
tagged with its station id. -/
theorem transformLoop_grouped (input_seq_len step : Nat) (ts : List TSRow)
    (sids : List Nat) :
    ∀ rows : List TrainingRow,
      transformLoop input_seq_len step ts sids = some rows →
      ∃ blocks : List (List TrainingRow),
        blocks.length = sids.length ∧
        rows = blocks.flatten ∧
        ∀ p ∈ blocks.zip sids, ∀ r ∈ p.1, r.station_id = p.2 := by
  induction sids with
  | nil =>
      intro rows h
      simp only [transformLoop, Option.some.injEq] at h
      subst h
      exact ⟨[], rfl, rfl, by simp⟩
  | cons sid rest ih =>
      intro rows h
      unfold transformLoop at h
      cases hb : station_rows input_seq_len step
          (sortByHour (ts.filter (fun r => r.station_id == sid))) sid with
      | none =>
          rw [hb] at h
          simp at h
      | some b =>
          cases hrest : transformLoop input_seq_len step ts rest with
          | none =>
              rw [hb, hrest] at h
              simp at h
          | some bs =>
              rw [hb, hrest] at h
              simp only [Option.some.injEq] at h
              obtain ⟨blocks, hlen, hflat, hall⟩ := ih bs hrest
              refine ⟨b :: blocks, by simp [hlen], by rw [← h, hflat]; rfl, ?_⟩
              intro p hp
              rw [List.zip_cons_cons] at hp
              rcases List.mem_cons.mp hp with rfl | hp
              · exact station_rows_sid input_seq_len step _ sid b hb
              · exact hall p hp

/-- Counterexample to claim C7: on a table where station 2 appears before
station 1 (each with one observation at hour 0), the assembled rows come out
in station order `[2, 1]` — the output is not sorted by
`(station_id, timestamp)`, and no such sort exists in the source. -/
theorem transform_not_sorted_cex :
    transform_ts_into_training_data 3 1 exampleTS =
      some [{ features := [5, 5, 5], hour := 0, station_id := 2, target := 5 },
            { features := [7, 7, 7], hour := 0, station_id := 1, target := 7 }]
    ∧ ¬ ([{ features := [5, 5, 5], hour := 0, station_id := 2, target := 5 },
          { features := [7, 7, 7], hour := 0, station_id := 1, target := 7 }] :
            List TrainingRow).Pairwise stationHourLE := by
  refine ⟨by decide, by decide⟩

/-- Claim C7 as amended: the training rows assembled by
`transform_ts_into_training_data` are not sorted by (station_id, timestamp);
they are returned grouped station-block by station-block, the blocks ordered
by first appearance of the station id in the input table (`pandas.unique`
order), with every row of a block carrying that block's station id. -/
theorem transform_rows_grouped (input_seq_len step : Nat) (ts : List TSRow)
    (rows : List TrainingRow)
    (h : transform_ts_into_training_data input_seq_len step ts = some rows) :
    GroupedByStation (uniqueIds (ts.map TSRow.station_id)) rows :=
  transformLoop_grouped input_seq_len step ts (uniqueIds (ts.map TSRow.station_id)) rows h

/-- Witness for C7 (amended): the counterexample table's rows are grouped by
station in first-appearance order `[2, 1]`. -/
theorem transform_rows_grouped_witness :
    GroupedByStation (uniqueIds (exampleTS.map TSRow.station_id))
      [{ features := [5, 5, 5], hour := 0, station_id := 2, target := 5 },
       { features := [7, 7, 7], hour := 0, station_id := 1, target := 7 }] :=
  transform_rows_grouped 3 1 exampleTS
    [{ features := [5, 5, 5], hour := 0, station_id := 2, target := 5 },
     { features := [7, 7, 7], hour := 0, station_id := 1, target := 7 }] (by decide)

/-! ## Claim C8 -/

/-- Counterexample to claim C8: for a non-inference (training) dataset whose
single row has a long start id (so every scenario's invalid-id fraction is 1,
i.e. at least 0.5, and the claim says the custom path is taken),
`check_if_we_use_custom_station_indexing` instead raises `AssertionError`:
line 49 of `choice.py` is `assert for_inference`, so the decision is never
computed for non-inference data. -/
theorem indexing_policy_cex :
    check_if_we_use_custom_station_indexing
        ⟨[(some "KA1504000135", none)]⟩ false [Scenario.start, Scenario.end_] =
      .error .assertionError
    ∧ proportion_of_problem_rows ⟨[(some "KA1504000135", none)]⟩ Scenario.start = 1
    ∧ proportion_of_problem_rows ⟨[(some "KA1504000135", none)]⟩ Scenario.end_ = 1
    ∧ (Except.error PyErr.assertionError : Except PyErr Bool) ≠ .ok true := by
  refine ⟨rfl, ?_, ?_, ?_⟩
  · show (((1 : Nat)) : ℚ) / (((1 : Nat)) : ℚ) = 1
    norm_num
  · show (((1 : Nat)) : ℚ) / (((1 : Nat)) : ℚ) = 1
    norm_num
  · intro hcontra
    exact Except.noConfusion hcontra

/-- Claim C8 as amended: `check_if_we_use_custom_station_indexing` asserts
`for_inference`, so for every non-inference (training) dataset it raises
`AssertionError` before computing any id ratio — the custom-vs-native
decision never happens for training data.  Called with `for_inference =
true`, it returns `true` exactly when every considered scenario's fraction of
null-or-long (≥ 7 characters) station ids is at least 0.5.  The policy
`match` of `investigate_making_new_station_ids` raises `NotImplementedError`
whenever that check is `false`, rather than silently selecting native ids. -/
theorem indexing_policy_spec (t : TripTable) (scenarios : List Scenario)
    (h : t.rows ≠ []) :
    check_if_we_use_custom_station_indexing t false scenarios = .error .assertionError
    ∧ (check_if_we_use_custom_station_indexing t true scenarios = .ok true ↔
        ∀ sc ∈ scenarios, (1 : ℚ) / 2 ≤ proportion_of_problem_rows t sc)
    ∧ (∀ tie : Bool, investigate_choice false tie = .error .notImplementedError) := by
  refine ⟨rfl, ?_, ?_⟩
  · have hlen : ¬ (t.rows.length = 0 ∧ scenarios ≠ []) := by
      rintro ⟨h0, -⟩
      exact h (List.length_eq_zero.mp h0)
    have hred : check_if_we_use_custom_station_indexing t true scenarios =
        if t.rows.length = 0 ∧ scenarios ≠ [] then .error .zeroDivisionError
        else .ok (scenarios.all (scenario_result t)) := rfl
    rw [hred, if_neg hlen]
    constructor
    · intro hok
      simp only [Except.ok.injEq] at hok
      intro sc hsc
      exact of_decide_eq_true (List.all_eq_true.mp hok sc hsc)
    · intro hall
      have hb : scenarios.all (scenario_result t) = true :=
        List.all_eq_true.mpr fun sc hsc => decide_eq_true (hall sc hsc)
      rw [hb]
  · intro tie
    cases tie <;> rfl

/-- Witness for C8 (amended): the assertion failure on a concrete one-row
non-inference table. -/
theorem indexing_policy_spec_witness :
    check_if_we_use_custom_station_indexing ⟨[(some "KA1504000135", none)]⟩ false
      [Scenario.start, Scenario.end_] = .error .assertionError :=
  (indexing_policy_spec ⟨[(some "KA1504000135", none)]⟩
    [Scenario.start, Scenario.end_] (by decide)).1

/-! ## Claim C9 -/

/-- Filtering a mapped list filters the originals. -/
theorem filter_of_map {α β : Type} (f : α → β) (p : β → Bool) (l : List α) :
    (l.map f).filter p = (l.filter (fun a => p (f a))).map f := by
  induction l with
  | nil => rfl
  | cons a rest ih =>
      cases hp : p (f a) <;> simp [List.filter_cons, hp, ih]

/-- Claim C9: aggregation groups rows by (hour, station_id) and sets the
`trips` column of each output row to the size of that group; consequently
every emitted row has trips ≥ 1 (no zero-trip hours are materialized), and
for every station the sum of trips over that station's output rows equals the
number of raw input records for that station across all hours. -/
theorem aggregate_final_ts_spec (rows : List (Nat × Nat)) (s : Nat) :
    (∀ (k : Nat × Nat) (c : Nat),
        ((k, c) ∈ aggregate_final_ts rows ↔ k ∈ rows ∧ c = rows.count k))
    ∧ (∀ (k : Nat × Nat) (c : Nat), (k, c) ∈ aggregate_final_ts rows → 1 ≤ c)
    ∧ (((aggregate_final_ts rows).filter (fun rc => rc.1.2 == s)).map Prod.snd).sum =
        rows.countP (fun k => k.2 == s) := by
  have hmem : ∀ (k : Nat × Nat) (c : Nat),
      ((k, c) ∈ aggregate_final_ts rows ↔ k ∈ rows ∧ c = rows.count k) := by
    intro k c
    unfold aggregate_final_ts
    rw [List.mem_map]
    constructor
    · rintro ⟨x, hx, hxe⟩
      rw [Prod.mk.injEq] at hxe
      obtain ⟨rfl, rfl⟩ := hxe
      exact ⟨List.mem_dedup.mp hx, rfl⟩
    · rintro ⟨hk, rfl⟩
      exact ⟨k, List.mem_dedup.mpr hk, rfl⟩
  refine ⟨hmem, ?_, ?_⟩
  · intro k c hkc
    have hk := (hmem k c).mp hkc
    have hpos : 0 < rows.count k := List.count_pos_iff.mpr hk.1
    omega
  · unfold aggregate_final_ts
    rw [filter_of_map (fun k => (k, rows.count k)) (fun rc => rc.1.2 == s) rows.dedup,
      List.map_map]
    have hpred : (fun a : Nat × Nat => ((a, rows.count a).1.2 == s)) =
        fun k : Nat × Nat => (k.2 == s) := rfl
    have hproj : (Prod.snd ∘ fun k : Nat × Nat => (k, rows.count k)) =
        fun k : Nat × Nat => rows.count k := rfl
    rw [hpred, hproj]
    have hcount : (fun x : Nat × Nat => rows.count x) =
        fun x : Nat × Nat => @List.count _ instBEqOfDecidableEq x rows := by
      funext x
      unfold List.count
      refine List.countP_congr fun a _ => ?_
      have h1 : (a == x) = true ↔ a = x := by
        obtain ⟨a1, a2⟩ := a
        obtain ⟨x1, x2⟩ := x
        simp [instBEqProd, Prod.mk.injEq, Bool.and_eq_true, beq_iff_eq]
      have h2 : (@BEq.beq _ instBEqOfDecidableEq a x) = true ↔ a = x := by
        show decide (a = x) = true ↔ a = x
        exact decide_eq_true_iff
      rw [h1, h2]
    rw [hcount]
    exact List.sum_map_count_dedup_filter_eq_countP (fun k => k.2 == s) rows

/-- Witness for C9: three records for station 7, two of them in hour 0,
aggregated at station 7. -/
theorem aggregate_final_ts_spec_witness :
    ((0, 7), 2) ∈ aggregate_final_ts [(0, 7), (1, 7), (0, 7)]
    ∧ 1 ≤ 2
    ∧ (((aggregate_final_ts [(0, 7), (1, 7), (0, 7)]).filter
          (fun rc => rc.1.2 == 7)).map Prod.snd).sum =
        List.countP (fun k => k.2 == 7) [(0, 7), (1, 7), (0, 7)] := by
  have h := aggregate_final_ts_spec [(0, 7), (1, 7), (0, 7)] 7
  have hm : ((0, 7), 2) ∈ aggregate_final_ts [(0, 7), (1, 7), (0, 7)] :=
    (h.1 (0, 7) 2).mpr ⟨by decide, by decide⟩
  exact ⟨hm, h.2.1 (0, 7) 2 hm, h.2.2⟩

end HourlyDivvy
